import Mathlib

/-!
Shallow embedding of the `danos/ephemera` repository: the ephemeral-component
library (`ephemera.go`) and the `ephemerad` daemon (runtime components,
directory reconciliation, and the Activate/Deactivate bus dispatcher).

Go maps are modelled as association lists (`List (String × α)`) together with
a Boolean no-duplicate-keys wellformedness check, which holds for every map
the Go runtime can build.  External effects (process execution, the VCI bus,
JSON decoding of stderr) are modelled as explicit oracles threaded through
the functions; each operation additionally returns the list of processes it
spawned so that spawn-count and environment-contract properties can be
stated.
-/

namespace Ephemera

/-! ### Association-list model of Go maps -/

/-- Lookup in an association list; models Go map indexing `m[k]` (presence). -/
def lookupKey {α : Type} : List (String × α) → String → Option α
  | [], _ => none
  | (k', v) :: rest, k => if k' = k then some v else lookupKey rest k

/-- Association-list update; models Go map assignment `m[k] = v`. -/
def assocSet {α : Type} : List (String × α) → String → α → List (String × α)
  | [], k, v => [(k, v)]
  | (k', v') :: rest, k, v =>
      if k' = k then (k, v) :: rest else (k', v') :: assocSet rest k v

/-- The list of keys of an association list. -/
def keysOf {α : Type} (m : List (String × α)) : List String :=
  m.map Prod.fst

/-- Boolean check that an association list has no duplicate keys.  Every Go
map satisfies this. -/
def nodupKeys {α : Type} : List (String × α) → Bool
  | [] => true
  | (k, _) :: rest => !(lookupKey rest k).isSome && nodupKeys rest

/-- Go map indexing for `map[string]string` returns the zero value `""` for a
missing key (used by `rpc.Equal`'s `oNames[name]`). -/
def mapGetD (m : List (String × String)) (k : String) : String :=
  match lookupKey m k with
  | some v => v
  | none => ""

/-! ### Structural string helpers (models of Go `strings` functions) -/

/-- Model of Go `strings.HasPrefix` on character lists. -/
def hasPrefixChars : List Char → List Char → Bool
  | _, [] => true
  | [], _ :: _ => false
  | c :: s, p :: ps => c = p && hasPrefixChars s ps

/-- Model of Go `strings.HasPrefix`. -/
def strHasPrefix (s pre : String) : Bool :=
  hasPrefixChars s.data pre.data

/-- Split a character list at every occurrence of `sep`; the list returned is
never empty. -/
def splitChars (sep : Char) : List Char → List (List Char)
  | [] => [[]]
  | c :: rest =>
      if c = sep then [] :: splitChars sep rest
      else
        match splitChars sep rest with
        | [] => [[c]]
        | p :: ps => (c :: p) :: ps

/-- Model of Go `strings.Split` for the single-character separators used by
the source (`" "` and `"/"`). -/
def strSplit (s : String) (sep : Char) : List String :=
  (splitChars sep s.data).map (fun l => ⟨l⟩)

/-- Model of Go `strings.Join`. -/
def strJoin : List String → String → String
  | [], _ => ""
  | [x], _ => x
  | x :: rest, sep => x ++ sep ++ strJoin rest sep

/-- The element after the first one of a split result; models the Go indexing
`strings.Split(name, " ")[1]`, which the source only evaluates after a prefix
check guaranteeing at least two parts. -/
def secondPart : List String → String
  | _ :: x :: _ => x
  | _ => ""

/-! ### Data model (`ephemera.go`) -/

/-- Opaque byte payloads (`encodedString` in the source) are modelled as
strings; the contents are never interpreted. -/
abbrev EncodedString := String

/-- `config` from ephemera.go: the per-model Config/Get, Config/Set and
Config/Check command lines. -/
structure Config where
  compName : String
  modelName : String
  get : String
  set : String
  check : String
  deriving Repr, DecidableEq

/-- `state` from ephemera.go: the per-model State/Get command line. -/
structure State where
  compName : String
  modelName : String
  get : String
  deriving Repr, DecidableEq

/-- `rpc` from ephemera.go: module name → operation name → command line. -/
structure Rpc where
  compName : String
  modelName : String
  modules : List (String × List (String × String))
  deriving Repr, DecidableEq

/-- `Model` from ephemera.go.  The `config`, `state` and `rpc` pointers may
be nil in Go; nil is modelled by `none`. -/
structure Model where
  name : String
  config : Option Config
  state : Option State
  rpc : Option Rpc
  deriving Repr, DecidableEq

/-- `Component` from ephemera.go. -/
structure Component where
  instanceFile : String
  name : String
  start : String
  stop : String
  models : List (String × Model)
  deriving Repr, DecidableEq

/-! ### Structural equality methods (`Equal` in the source) -/

/-- `config.Equal` (ephemera.go:157): compares only the three command
strings, never the embedded component/model names. -/
def configEqual (c oc : Config) : Bool :=
  c.get == oc.get && c.set == oc.set && c.check == oc.check

/-- `state.Equal` (ephemera.go:202): compares only the get command string. -/
def stateEqual (c os : State) : Bool :=
  c.get == os.get

/-- `rpc.Equal` (ephemera.go:279): outer-map length check, then both
directions of lookups; a missing inner key reads as `""` exactly as Go map
indexing does. -/
def rpcEqual (r or : Rpc) : Bool :=
  r.modules.length == or.modules.length &&
  r.modules.all (fun p =>
    match lookupKey or.modules p.1 with
    | none => false
    | some oNames => p.2.all (fun q => mapGetD oNames q.1 == q.2)) &&
  or.modules.all (fun p =>
    match lookupKey r.modules p.1 with
    | none => false
    | some rNames => p.2.all (fun q => mapGetD rNames q.1 == q.2))

/-- `dyn.Equal` applied to a pair of possibly-nil pointers with an `Equal`
method.  Two nil pointers compare equal (Go interface equality).  A nil
pointer against a non-nil one is modelled as `false`; in Go that branch
would dereference a nil receiver, and it is unreached in every theorem
below. -/
def optEqual {α : Type} (eq : α → α → Bool) : Option α → Option α → Bool
  | none, none => true
  | some a, some b => eq a b
  | _, _ => false

/-- `Model.Equal` (ephemera.go:329). -/
def modelEqual (m om : Model) : Bool :=
  m.name == om.name &&
  optEqual configEqual m.config om.config &&
  optEqual stateEqual m.state om.state &&
  optEqual rpcEqual m.rpc om.rpc

/-- `Component.equalModels` (ephemera.go:438): length check then lookups in
both directions. -/
def equalModels (c oc : Component) : Bool :=
  c.models.length == oc.models.length &&
  c.models.all (fun p =>
    match lookupKey oc.models p.1 with
    | some m => modelEqual p.2 m
    | none => false) &&
  oc.models.all (fun p =>
    match lookupKey c.models p.1 with
    | some m => modelEqual p.2 m
    | none => false)

/-- `Component.Equal` (ephemera.go:381): compares name, start, stop and the
model map — never `instanceFile`. -/
def componentEqual (c oc : Component) : Bool :=
  c.name == oc.name &&
  c.start == oc.start &&
  c.stop == oc.stop &&
  equalModels c oc

/-! ### Instance-file parsing (`configNew`, `stateNew`, `rpcNew`, `modelNew`,
`Component.instantiate`)

The ini library (`github.com/go-ini/ini`) is an external collaborator.  The
behaviours the source relies on: `File.Section(name)` never returns nil (it
creates an empty section on demand); `Section.Key(name)` never returns nil
(it creates an empty key on demand), so `Key(...).MustString("")` yields the
key's value, or `""` when the key is absent; `Section.Keys()` lists the
section's keys in file order; `File.Sections()` lists the sections. -/

/-- A parsed ini section: its name and its keys in file order. -/
structure IniSection where
  name : String
  keys : List (String × String)
  deriving Repr, DecidableEq

/-- A parsed ini file: its sections in file order. -/
structure IniFile where
  sections : List IniSection
  deriving Repr, DecidableEq

/-- `section.Key(k).MustString("")`: the key's value, `""` when absent. -/
def keyMustString (s : IniSection) (k : String) : String :=
  match lookupKey s.keys k with
  | some v => v
  | none => ""

/-- `cfg.Section(name)`: the named section, or a fresh empty one. -/
def fileSection (f : IniFile) (name : String) : IniSection :=
  match f.sections.find? (fun s => s.name == name) with
  | some s => s
  | none => ⟨name, []⟩

/-- `configNew` (ephemera.go:71).  The source tests
`getKey == nil && setKey == nil && chkKey == nil`, but go-ini's
`Section.Key` never returns nil, so that branch is dead and a config record
is always produced, with `""` for each absent key. -/
def configNew (compName modelName : String) (sec : IniSection) : Option Config :=
  some { compName := compName
         modelName := modelName
         get := keyMustString sec "Config/Get"
         set := keyMustString sec "Config/Set"
         check := keyMustString sec "Config/Check" }

/-- `stateNew` (ephemera.go:171).  As with `configNew`, the `getKey == nil`
test never fires, so a state record is always produced. -/
def stateNew (compName modelName : String) (sec : IniSection) : Option State :=
  some { compName := compName
         modelName := modelName
         get := keyMustString sec "State/Get" }

/-- One step of `rpcNew`'s key loop: keys without the `RPC/` prefix or not of
the three-part `RPC/<module>/<name>` shape are skipped, otherwise the
command line is recorded under module/name. -/
def rpcNewStep (modules : List (String × List (String × String)))
    (key : String × String) : List (String × List (String × String)) :=
  if !strHasPrefix key.1 "RPC/" then modules
  else
    match strSplit key.1 '/' with
    | [_, module, name] =>
        let rpcs := match lookupKey modules module with
                    | some r => r
                    | none => []
        assocSet modules module (assocSet rpcs name key.2)
    | _ => modules

/-- `rpcNew` (ephemera.go:214): scan the section's keys; nil (`none`) when no
RPC key was found. -/
def rpcNew (compName modelName : String) (sec : IniSection) : Option Rpc :=
  let modules := sec.keys.foldl rpcNewStep []
  if modules.length == 0 then none
  else some { compName := compName, modelName := modelName, modules := modules }

/-- `modelNew` (ephemera.go:338). -/
def modelNew (compName name : String) (sec : IniSection) : Model :=
  { name := name
    config := configNew compName name sec
    state := stateNew compName name sec
    rpc := rpcNew compName name sec }

/-- One step of `instantiate`'s section loop: only sections named
`Model <name>` contribute, keyed by the word after the space. -/
def instantiateStep (compName : String) (ms : List (String × Model))
    (sec : IniSection) : List (String × Model) :=
  if !strHasPrefix sec.name "Model " then ms
  else
    let modelName := secondPart (strSplit sec.name ' ')
    assocSet ms modelName (modelNew compName modelName sec)

/-- `Component.instantiate` (ephemera.go:355) applied to a successfully
loaded ini file: extract Name/Start/Stop from the `[Component]` section and
build the model map from the `Model <name>` sections.  `New` stores the
instance file path and then instantiates, so the path only lands in the
`instanceFile` field. -/
def instantiate (instanceFile : String) (cfg : IniFile) : Component :=
  let name := keyMustString (fileSection cfg "Component") "Name"
  { instanceFile := instanceFile
    name := name
    start := keyMustString (fileSection cfg "Component") "Start"
    stop := keyMustString (fileSection cfg "Component") "Stop"
    models := cfg.sections.foldl (instantiateStep name) [] }

/-! ### Script invocation (`genEnvironment`, `unpackError`, the operation
methods)

Process execution is an oracle: `Sys.exec` maps a spawn request (argument
vector, environment, stdin) to an exit status, stdout and stderr.  Each
operation returns the list of spawn requests it issued alongside its Go
return values, so spawn counts and the environment contract are provable. -/

/-- One spawned process: the split command line, the environment passed via
`cmd.Env`, and the bytes written to the child's stdin. -/
structure SpawnEvent where
  args : List String
  env : List String
  stdin : EncodedString
  deriving Repr, DecidableEq

/-- Outcome of one process: `exitOk` is `cmd.Output()` returning a nil
error (the process ran and exited zero). -/
structure ExecResult where
  exitOk : Bool
  stdout : EncodedString
  stderr : EncodedString
  deriving Repr, DecidableEq

/-- The external world: process execution, and whether a stderr buffer
decodes as a structured mgmterror JSON document. -/
structure Sys where
  exec : SpawnEvent → ExecResult
  jsonDecodes : EncodedString → Bool

/-- Errors produced by `unpackError` (ephemera.go:463): either the stderr
bytes decoded as a structured MgmtError, or the raw stderr text wrapped in a
generic exec error. -/
inductive ScriptError
  | mgmt (doc : EncodedString)
  | execErr (text : EncodedString)
  deriving Repr, DecidableEq

/-- `unpackError` (ephemera.go:463). -/
def unpackError (sys : Sys) (stderr : EncodedString) : ScriptError :=
  if sys.jsonDecodes stderr then .mgmt stderr else .execErr stderr

/-- `genEnvironment` (ephemera.go:455): exactly three variables. -/
def genEnvironment (compName modelName operation : String) : List String :=
  ["VCI_COMPONENT_NAME=" ++ compName,
   "VCI_MODEL_NAME=" ++ modelName,
   "EPHEMERA_MESSAGE=" ++ operation]

/-- The process spawned by `config.Get`: the split command line, the
generated environment, nothing on stdin. -/
def config.GetEvent (c : Config) : SpawnEvent :=
  ⟨strSplit c.get ' ', genEnvironment c.compName c.modelName "Config/Get", ""⟩

/-- `config.Get` (ephemera.go:87): empty command short-circuits to an empty
payload; a failing script is logged and also yields an empty payload — the
method has no error result. -/
def config.Get (c : Config) (sys : Sys) : List SpawnEvent × EncodedString :=
  if c.get = "" then ([], "")
  else
    let ev := config.GetEvent c
    let r := sys.exec ev
    if r.exitOk then ([ev], r.stdout) else ([ev], "")

/-- The bus-visible outcome of a config get handler call.  The Go handler
signature `func() encodedString` has no error return, so the bus always
receives the returned bytes as a successful reply. -/
def config.GetOutcome (c : Config) (sys : Sys) : Except ScriptError EncodedString :=
  .ok (config.Get c sys).2

/-- The process spawned by `config.Set`: its stdin carries the input
payload. -/
def config.SetEvent (c : Config) (inp : EncodedString) : SpawnEvent :=
  ⟨strSplit c.set ' ', genEnvironment c.compName c.modelName "Config/Set", inp⟩

/-- `config.Set` (ephemera.go:107): empty command short-circuits to success;
the input payload goes to the child's stdin; a nonzero exit returns the
unpacked error. -/
def config.Set (c : Config) (sys : Sys) (inp : EncodedString) :
    List SpawnEvent × Option ScriptError :=
  if c.set = "" then ([], none)
  else
    let ev := config.SetEvent c inp
    let r := sys.exec ev
    if r.exitOk then ([ev], none) else ([ev], some (unpackError sys r.stderr))

/-- The process spawned by `config.Check`. -/
def config.CheckEvent (c : Config) (inp : EncodedString) : SpawnEvent :=
  ⟨strSplit c.check ' ', genEnvironment c.compName c.modelName "Config/Check", inp⟩

/-- `config.Check` (ephemera.go:132): same shape as `Set` with the
`Config/Check` label. -/
def config.Check (c : Config) (sys : Sys) (inp : EncodedString) :
    List SpawnEvent × Option ScriptError :=
  if c.check = "" then ([], none)
  else
    let ev := config.CheckEvent c inp
    let r := sys.exec ev
    if r.exitOk then ([ev], none) else ([ev], some (unpackError sys r.stderr))

/-- The process spawned by `state.Get`. -/
def state.GetEvent (c : State) : SpawnEvent :=
  ⟨strSplit c.get ' ', genEnvironment c.compName c.modelName "State/Get", ""⟩

/-- `state.Get` (ephemera.go:183): like `config.Get` with the `State/Get`
label; no error result. -/
def state.Get (c : State) (sys : Sys) : List SpawnEvent × EncodedString :=
  if c.get = "" then ([], "")
  else
    let ev := state.GetEvent c
    let r := sys.exec ev
    if r.exitOk then ([ev], r.stdout) else ([ev], "")

/-- The bus-visible outcome of a state get handler call (no error return in
the Go signature). -/
def state.GetOutcome (c : State) (sys : Sys) : Except ScriptError EncodedString :=
  .ok (state.Get c sys).2

/-- The process spawned by an RPC invocation: the environment carries the
`RPC/<module>/<name>` label, stdin carries the input payload. -/
def rpc.RpcEvent (r : Rpc) (module name rpcCmd : String)
    (inp : EncodedString) : SpawnEvent :=
  ⟨strSplit rpcCmd ' ',
   genEnvironment r.compName r.modelName (strJoin ["RPC", module, name] "/"),
   inp⟩

/-- The function generated by `rpc.genRpc` (ephemera.go:243) applied to its
input payload.  Note the generated Go closure is `func(in encodedString)
(encodedString, error)` — it takes only the input payload; no call metadata
reaches it or the child process.  On error the Go code returns
`([]byte{}, merr)`: both the empty payload and the error. -/
def rpc.genRpc (r : Rpc) (module name rpcCmd : String) (sys : Sys)
    (inp : EncodedString) : List SpawnEvent × EncodedString × Option ScriptError :=
  let ev := rpc.RpcEvent r module name rpcCmd inp
  let res := sys.exec ev
  if res.exitOk then ([ev], res.stdout, none)
  else ([ev], "", some (unpackError sys res.stderr))

/-- The process spawned by `Component.Start`: note the empty model name. -/
def Component.StartEvent (c : Component) : SpawnEvent :=
  ⟨strSplit c.start ' ', genEnvironment c.name "" "Start", ""⟩

/-- `Component.Start` (ephemera.go:390): empty start command short-circuits
to success; otherwise run the start script with an empty model name. -/
def Component.Start (c : Component) (sys : Sys) :
    List SpawnEvent × Option ScriptError :=
  if c.start = "" then ([], none)
  else
    let ev := Component.StartEvent c
    let r := sys.exec ev
    if r.exitOk then ([ev], none) else ([ev], some (unpackError sys r.stderr))

/-- The process spawned by `Component.Stop`. -/
def Component.StopEvent (c : Component) : SpawnEvent :=
  ⟨strSplit c.stop ' ', genEnvironment c.name "" "Stop", ""⟩

/-- `Component.Stop` (ephemera.go:414): mirror of `Start` with the stop
command and the `Stop` label. -/
def Component.Stop (c : Component) (sys : Sys) :
    List SpawnEvent × Option ScriptError :=
  if c.stop = "" then ([], none)
  else
    let ev := Component.StopEvent c
    let r := sys.exec ev
    if r.exitOk then ([ev], none) else ([ev], some (unpackError sys r.stderr))

end Ephemera

namespace Ephemerad

open Ephemera

/-- An opaque error from the VCI bus (`vci.Component.Run` / `Stop`); `none`
models a nil error. -/
abbrev VciErr := String

/-- The daemon's `component` (runtime component): a meta `Component`, the
identity of its `vci.Component` bus registration handle, and the
actor-held running flag (`started` agent). -/
structure RuntimeComponent where
  meta : Ephemera.Component
  vciId : Nat
  running : Bool
  deriving Repr, DecidableEq

/-- `component.Run` from the daemon: the agent serializes the update, so one
call is a function of the current flag.  If already running, nothing happens
and nil is returned.  Otherwise `c.meta.Start()` runs — its error is
discarded — then `c.vci.Run()`; only the bus error decides the outcome.
Returns the new flag, the processes spawned, and the error sent back on the
reply channel. -/
def component.Run (meta : Ephemera.Component) (isRunning : Bool) (sys : Sys)
    (vciRunErr : Option VciErr) : Bool × List SpawnEvent × Option VciErr :=
  if isRunning then (isRunning, [], none)
  else
    let started := Component.Start meta sys
    match vciRunErr with
    | none => (true, started.1, none)
    | some e => (false, started.1, some e)

/-- `component.Stop` from the daemon: if not running, nothing happens and nil
is returned; otherwise `c.meta.Stop()` runs — its error is discarded — then
`c.vci.Stop()`; only the bus error decides the outcome. -/
def component.Stop (meta : Ephemera.Component) (isRunning : Bool) (sys : Sys)
    (vciStopErr : Option VciErr) : Bool × List SpawnEvent × Option VciErr :=
  if !isRunning then (isRunning, [], none)
  else
    let stopped := Component.Stop meta sys
    match vciStopErr with
    | none => (false, stopped.1, none)
    | some e => (true, stopped.1, some e)

/-- A registry snapshot: the atomically-swapped map from component name to
runtime component. -/
abbrev Snapshot := List (String × RuntimeComponent)

/-- One entry of the `swapper` inside `watchInstanceDirectory`: a candidate
entry whose name exists in the old snapshot with a structurally equal meta
component is replaced by the old runtime component. -/
def swapEntry (old : Snapshot) (p : String × RuntimeComponent) :
    String × RuntimeComponent :=
  match lookupKey old p.1 with
  | none => p
  | some oldComp =>
      if componentEqual p.2.meta oldComp.meta then (p.1, oldComp) else p

/-- The `swapper` inside `watchInstanceDirectory`: `fresh` is the candidate
snapshot produced by `readAllComponents`; every entry is put through
`swapEntry`. -/
def swapper (old fresh : Snapshot) : Snapshot :=
  fresh.map (swapEntry old)

/-- A pending stop issued by reconciliation: the name and the runtime
component whose `Stop` will be called. -/
structure StopAction where
  name : String
  target : RuntimeComponent
  deriving Repr, DecidableEq

/-- The actions computed by `syncComponents`: a stop for every old name
missing from the new snapshot, then a stop of the old runtime component for
every name present in both whose meta components differ. -/
def syncActions (old new : Snapshot) : List StopAction :=
  (old.filter (fun p => !(lookupKey new p.1).isSome)).map
      (fun p => ⟨p.1, p.2⟩) ++
  new.filterMap (fun p =>
    match lookupKey old p.1 with
    | none => none
    | some oc =>
        if componentEqual p.2.meta oc.meta then none
        else some ⟨p.1, oc⟩)

/-- Errors returned by the daemon's Activate/Deactivate bus operations. -/
inductive DaemonErr
  | noComponent (name : String)
  | opErr (e : VciErr)
  deriving Repr, DecidableEq

/-- `rpc.Activate` from the daemon: look the name up in the current
snapshot; absent → not-found error with nothing run; present → `Run` the
runtime component, propagating its error, and return the empty tree on
success.  The returned snapshot reflects the component's updated flag (in Go
the flag mutates inside the shared component object). -/
def rpc.Activate (cs : Snapshot) (sys : Sys) (vciRunErr : Option VciErr)
    (name : String) : Snapshot × List SpawnEvent × Except DaemonErr Unit :=
  match lookupKey cs name with
  | none => (cs, [], .error (.noComponent name))
  | some rc =>
      let r := component.Run rc.meta rc.running sys vciRunErr
      match r.2.2 with
      | some e => (assocSet cs name { rc with running := r.1 }, r.2.1, .error (.opErr e))
      | none => (assocSet cs name { rc with running := r.1 }, r.2.1, .ok ())

/-- `rpc.Deactivate` from the daemon: mirror of `Activate` driving `Stop`. -/
def rpc.Deactivate (cs : Snapshot) (sys : Sys) (vciStopErr : Option VciErr)
    (name : String) : Snapshot × List SpawnEvent × Except DaemonErr Unit :=
  match lookupKey cs name with
  | none => (cs, [], .error (.noComponent name))
  | some rc =>
      let r := component.Stop rc.meta rc.running sys vciStopErr
      match r.2.2 with
      | some e => (assocSet cs name { rc with running := r.1 }, r.2.1, .error (.opErr e))
      | none => (assocSet cs name { rc with running := r.1 }, r.2.1, .ok ())

end Ephemerad

namespace Ephemera

/-! ### Wellformedness: the no-duplicate-keys invariants every Go map
satisfies. -/

/-- Wellformed RPC set: no duplicate module names, no duplicate operation
names within a module. -/
def wfRpc (r : Rpc) : Bool :=
  nodupKeys r.modules && r.modules.all (fun p => nodupKeys p.2)

/-- Wellformed model: its RPC set, when present, is wellformed. -/
def wfModel (m : Model) : Bool :=
  match m.rpc with
  | none => true
  | some r => wfRpc r

/-- Wellformed component: no duplicate model names, all models wellformed. -/
def wfComponent (c : Component) : Bool :=
  nodupKeys c.models && c.models.all (fun p => wfModel p.2)

/-! ### Spec-side structural sameness (for comparison against the code's
`Equal` methods)

These definitions follow the spec's words — "identical get/set/check/rpc
command strings, independent of map key ordering" — rather than the source,
and exist to be compared with `modelEqual`. -/

/-- Spec-side: the two optional configs carry identical get/set/check
command strings (component/model names are not part of the comparison). -/
def configSameStrings : Option Config → Option Config → Bool
  | none, none => true
  | some c, some c2 => c.get == c2.get && c.set == c2.set && c.check == c2.check
  | _, _ => false

/-- Spec-side: the two optional states carry identical get command
strings. -/
def stateSameStrings : Option State → Option State → Bool
  | none, none => true
  | some s, some s2 => s.get == s2.get
  | _, _ => false

/-- Spec-side: the two RPC sets hold identical module/operation/command
triples, checked through lookups so that map key ordering is irrelevant. -/
def rpcSameTriples (r ro : Rpc) : Bool :=
  r.modules.length == ro.modules.length &&
  (keysOf r.modules ++ keysOf ro.modules).all (fun module =>
    match lookupKey r.modules module, lookupKey ro.modules module with
    | some names, some oNames =>
        (keysOf names ++ keysOf oNames).all (fun name =>
          lookupKey names name == lookupKey oNames name)
    | none, none => true
    | _, _ => false)

/-- Spec-side: pointwise lift of `rpcSameTriples` to optional RPC sets. -/
def rpcSameOpt : Option Rpc → Option Rpc → Bool
  | none, none => true
  | some r, some ro => rpcSameTriples r ro
  | _, _ => false

/-- Spec-side structural sameness of two Models: same name, identical
config/state/rpc command strings, independent of map key ordering. -/
def modelSameStructure (m mo : Model) : Bool :=
  m.name == mo.name &&
  configSameStrings m.config mo.config &&
  stateSameStrings m.state mo.state &&
  rpcSameOpt m.rpc mo.rpc

/-- The command string an RPC set associates with `(module, name)`, reading
a missing module or operation as `""` (the Go map zero value). -/
def rpcGetD (r : Rpc) (module name : String) : String :=
  match lookupKey r.modules module with
  | none => ""
  | some names => mapGetD names name

/-- The triple of command strings of an optional config, forgetting the
embedded component/model names. -/
def configStringsOf : Option Config → Option (String × String × String)
  | none => none
  | some c => some (c.get, c.set, c.check)

/-- The get command string of an optional state. -/
def stateStringsOf : Option State → Option String
  | none => none
  | some s => some s.get

end Ephemera

namespace Witness

open Ephemera Ephemerad

/-! ### Concrete inputs used by counterexamples and witnesses -/

/-- A world in which every spawned process fails: exit nonzero, stdout
`"data"`, stderr `"boom"`, stderr not JSON-decodable. -/
def failSys : Sys :=
  { exec := fun _ => ⟨false, "data", "boom"⟩, jsonDecodes := fun _ => false }

/-- A world in which every spawned process succeeds with stdout `"out"`. -/
def okSys : Sys :=
  { exec := fun _ => ⟨true, "out", ""⟩, jsonDecodes := fun _ => false }

/-- A component with both a start and a stop script and no models. -/
def cMeta : Component :=
  { instanceFile := "f", name := "c", start := "startcmd", stop := "stopcmd",
    models := [] }

/-- Instance-file content whose single model section holds only an RPC key:
no `Config/*` or `State/Get` keys at all. -/
def onlyRpcFile : IniFile :=
  ⟨[⟨"Component", [("Name", "comp")]⟩,
    ⟨"Model m", [("RPC/test/rpc1", "cmd")]⟩]⟩

/-- Instance-file content with name, start/stop commands and one model. -/
def fullFile : IniFile :=
  ⟨[⟨"Component", [("Name", "comp"), ("Start", "scmd"), ("Stop", "tcmd")]⟩,
    ⟨"Model m", [("Config/Get", "g"), ("RPC/test/rpc1", "cmd")]⟩]⟩

/-- A config whose get command is set and whose set/check commands are
empty. -/
def cfgGetOnly : Config := ⟨"comp", "mod", "getcmd", "", ""⟩

/-- A config with all three commands configured. -/
def cfgFull : Config := ⟨"comp", "mod", "getcmd", "setcmd", "checkcmd"⟩

/-- A state record with a get command. -/
def stFull : State := ⟨"comp", "mod", "sgetcmd"⟩

/-- An RPC set with two modules. -/
def rpcA : Rpc :=
  ⟨"comp", "mod", [("a", [("x", "1"), ("y", "2")]), ("b", [("z", "3")])]⟩

/-- The same triples as `rpcA`, under different map key orderings and
different embedded component/model names. -/
def rpcB : Rpc :=
  ⟨"othercomp", "othermod", [("b", [("z", "3")]), ("a", [("y", "2"), ("x", "1")])]⟩

/-- A model built on `rpcA`. -/
def mdlA : Model :=
  ⟨"net.test.v1", some cfgFull, some stFull, some rpcA⟩

/-- A model structurally identical to `mdlA` with reordered RPC maps and
different provenance names inside config/state. -/
def mdlB : Model :=
  ⟨"net.test.v1", some ⟨"oc", "om", "getcmd", "setcmd", "checkcmd"⟩,
   some ⟨"oc", "om", "sgetcmd"⟩, some rpcB⟩

/-- An old runtime component: running, with a meta component parsed from
`fullFile`. -/
def oldRC : RuntimeComponent :=
  { meta := instantiate "dir/a.instance" fullFile, vciId := 1, running := true }

/-- A freshly re-read runtime component for the same definition: a new bus
handle identity and a not-running flag, but a structurally equal meta. -/
def freshRC : RuntimeComponent :=
  { meta := instantiate "dir/a.instance" fullFile, vciId := 2, running := false }

/-- An old snapshot holding one running component. -/
def oldSnap : Snapshot := [("comp", oldRC)]

/-- A snapshot holding one not-running component backed by `cMeta`. -/
def stoppedSnap : Snapshot := [("comp", ⟨cMeta, 7, false⟩)]

/-- The candidate snapshot produced by re-reading an unchanged directory. -/
def freshSnap : Snapshot := [("comp", freshRC)]

end Witness

namespace Ephemera

/-! ### Association-list lemmas -/

theorem mem_of_lookupKey {α : Type} {m : List (String × α)} {k : String} {v : α}
    (h : lookupKey m k = some v) : (k, v) ∈ m := by
  induction m with
  | nil => simp [lookupKey] at h
  | cons p rest ih =>
      obtain ⟨k', v'⟩ := p
      simp only [lookupKey] at h
      by_cases hk : k' = k
      · rw [if_pos hk] at h
        injection h with h
        subst hk
        subst h
        exact List.mem_cons_self _ _
      · rw [if_neg hk] at h
        exact List.mem_cons_of_mem _ (ih h)

theorem lookupKey_isSome_of_mem {α : Type} {m : List (String × α)} {k : String}
    {v : α} (h : (k, v) ∈ m) : (lookupKey m k).isSome = true := by
  induction m with
  | nil => cases h
  | cons p rest ih =>
      obtain ⟨k', v'⟩ := p
      simp only [lookupKey]
      by_cases hk : k' = k
      · rw [if_pos hk]; rfl
      · rw [if_neg hk]
        rcases List.mem_cons.mp h with h1 | h1
        · injection h1 with h1 _
          exact absurd h1.symm hk
        · exact ih h1

theorem lookupKey_eq_of_mem_nodup {α : Type} {m : List (String × α)} {k : String}
    {v : α} (hn : nodupKeys m = true) (h : (k, v) ∈ m) : lookupKey m k = some v := by
  induction m with
  | nil => cases h
  | cons p rest ih =>
      obtain ⟨k', v'⟩ := p
      simp only [nodupKeys, Bool.and_eq_true, Bool.not_eq_true'] at hn
      rcases List.mem_cons.mp h with h1 | h1
      · injection h1 with h1 h2
        subst h1; subst h2
        simp [lookupKey]
      · have hrest := ih hn.2 h1
        simp only [lookupKey]
        by_cases hk : k' = k
        · subst hk
          rw [hrest] at hn
          simp at hn
        · rw [if_neg hk]
          exact hrest

theorem lookupKey_assocSet {α : Type} (m : List (String × α)) (k j : String)
    (v : α) :
    lookupKey (assocSet m k v) j = if k = j then some v else lookupKey m j := by
  induction m with
  | nil => simp [assocSet, lookupKey]
  | cons p rest ih =>
      obtain ⟨k', v'⟩ := p
      simp only [assocSet]
      by_cases hk : k' = k
      · subst hk
        rw [if_pos rfl]
        by_cases hj : k' = j
        · subst hj
          simp [lookupKey]
        · simp [lookupKey, if_neg hj]
      · rw [if_neg hk]
        by_cases hj : k' = j
        · subst hj
          have hkj : ¬ k = k' := fun h => hk h.symm
          simp [lookupKey, if_neg hkj]
        · simp only [lookupKey, if_neg hj]
          exact ih

theorem mem_assocSet {α : Type} {m : List (String × α)} {k : String} {v : α}
    {p : String × α} (h : p ∈ assocSet m k v) : p = (k, v) ∨ p ∈ m := by
  induction m with
  | nil =>
      simp [assocSet] at h
      left; exact h
  | cons q rest ih =>
      obtain ⟨k', v'⟩ := q
      simp only [assocSet] at h
      by_cases hk : k' = k
      · rw [if_pos hk] at h
        rcases List.mem_cons.mp h with h1 | h1
        · left; exact h1
        · right; exact List.mem_cons_of_mem _ h1
      · rw [if_neg hk] at h
        rcases List.mem_cons.mp h with h1 | h1
        · right; rw [h1]; exact List.mem_cons_self _ _
        · rcases ih h1 with h2 | h2
          · left; exact h2
          · right; exact List.mem_cons_of_mem _ h2

theorem nodupKeys_assocSet {α : Type} {m : List (String × α)} (k : String)
    (v : α) (hn : nodupKeys m = true) : nodupKeys (assocSet m k v) = true := by
  induction m with
  | nil => simp [assocSet, nodupKeys, lookupKey]
  | cons p rest ih =>
      obtain ⟨k', v'⟩ := p
      simp only [nodupKeys, Bool.and_eq_true, Bool.not_eq_true'] at hn
      simp only [assocSet]
      by_cases hk : k' = k
      · subst hk
        simp only [nodupKeys, Bool.and_eq_true, Bool.not_eq_true']
        exact hn
      · rw [if_neg hk]
        simp only [nodupKeys, Bool.and_eq_true, Bool.not_eq_true']
        refine ⟨?_, ih hn.2⟩
        rw [lookupKey_assocSet]
        rw [if_neg (fun h => hk h.symm)]
        exact hn.1

theorem lookupKey_isSome_iff_mem_keys {α : Type} {m : List (String × α)}
    {k : String} : (lookupKey m k).isSome = true ↔ k ∈ keysOf m := by
  induction m with
  | nil => simp [lookupKey, keysOf]
  | cons p rest ih =>
      obtain ⟨k', v'⟩ := p
      simp only [lookupKey, keysOf, List.map_cons, List.mem_cons]
      by_cases hk : k' = k
      · subst hk
        simp
      · rw [if_neg hk]
        simp only [keysOf] at ih
        rw [ih]
        constructor
        · exact fun h => Or.inr h
        · rintro (h | h)
          · exact absurd h.symm hk
          · exact h

end Ephemera

namespace Ephemera

/-! ### Wellformedness of parsed components -/

/-- One `rpcNew` step keeps the module map free of duplicate module names
and keeps every inner operation map free of duplicate operation names. -/
theorem wfModules_rpcNewStep {ms : List (String × List (String × String))}
    (key : String × String)
    (hn : nodupKeys ms = true) (ha : ∀ p ∈ ms, nodupKeys p.2 = true) :
    nodupKeys (rpcNewStep ms key) = true ∧
      ∀ p ∈ rpcNewStep ms key, nodupKeys p.2 = true := by
  unfold rpcNewStep
  by_cases hpre : strHasPrefix key.1 "RPC/"
  · rw [hpre]
    simp only [Bool.not_true, if_neg (by simp : ¬ (false = true))]
    cases hsp : strSplit key.1 '/' with
    | nil => exact ⟨hn, ha⟩
    | cons a tl =>
        cases tl with
        | nil => exact ⟨hn, ha⟩
        | cons b tl2 =>
            cases tl2 with
            | nil => exact ⟨hn, ha⟩
            | cons c tl3 =>
                cases tl3 with
                | nil =>
                    refine ⟨nodupKeys_assocSet _ _ hn, ?_⟩
                    intro p hp
                    rcases mem_assocSet hp with h1 | h1
                    · subst h1
                      cases hlk : lookupKey ms b with
                      | none => simp [hlk, assocSet, nodupKeys, lookupKey]
                      | some r =>
                          simp only [hlk]
                          exact nodupKeys_assocSet _ _ (ha _ (mem_of_lookupKey hlk))
                    · exact ha _ h1
                | cons d tl4 => exact ⟨hn, ha⟩
  · rw [Bool.not_eq_true] at hpre
    simp only [hpre, Bool.not_false, if_pos]
    exact ⟨hn, ha⟩

/-- The fold inside `rpcNew` preserves the invariants. -/
theorem wfModules_foldl (keys : List (String × String))
    (ms : List (String × List (String × String)))
    (hn : nodupKeys ms = true) (ha : ∀ p ∈ ms, nodupKeys p.2 = true) :
    nodupKeys (keys.foldl rpcNewStep ms) = true ∧
      ∀ p ∈ keys.foldl rpcNewStep ms, nodupKeys p.2 = true := by
  induction keys generalizing ms with
  | nil => exact ⟨hn, ha⟩
  | cons key rest ih =>
      have step := wfModules_rpcNewStep key hn ha
      exact ih _ step.1 step.2

/-- Every RPC set produced by `rpcNew` is wellformed. -/
theorem wfRpc_rpcNew {compName modelName : String} {sec : IniSection} {r : Rpc}
    (h : rpcNew compName modelName sec = some r) : wfRpc r = true := by
  unfold rpcNew at h
  by_cases hz : (sec.keys.foldl rpcNewStep []).length == 0
  · rw [if_pos hz] at h; cases h
  · rw [if_neg hz] at h
    have hw := wfModules_foldl sec.keys [] rfl (by intro p hp; cases hp)
    injection h with h
    subst h
    simp only [wfRpc, Bool.and_eq_true, List.all_eq_true]
    exact ⟨hw.1, fun p hp => hw.2 p hp⟩

/-- Every model produced by `modelNew` is wellformed. -/
theorem wfModel_modelNew (compName name : String) (sec : IniSection) :
    wfModel (modelNew compName name sec) = true := by
  unfold wfModel modelNew
  cases hr : rpcNew compName name sec with
  | none => simp
  | some r => simpa using wfRpc_rpcNew hr

/-- One `instantiate` step keeps the model map wellformed. -/
theorem wfComponent_instantiateStep (compName : String)
    {ms : List (String × Model)} (sec : IniSection)
    (hn : nodupKeys ms = true) (ha : ∀ p ∈ ms, wfModel p.2 = true) :
    nodupKeys (instantiateStep compName ms sec) = true ∧
      ∀ p ∈ instantiateStep compName ms sec, wfModel p.2 = true := by
  unfold instantiateStep
  by_cases hpre : strHasPrefix sec.name "Model "
  · rw [hpre]
    simp only [Bool.not_true, if_neg (by simp : ¬ (false = true))]
    refine ⟨nodupKeys_assocSet _ _ hn, ?_⟩
    intro p hp
    rcases mem_assocSet hp with h1 | h1
    · subst h1
      exact wfModel_modelNew _ _ _
    · exact ha _ h1
  · rw [Bool.not_eq_true] at hpre
    simp only [hpre, Bool.not_false, if_pos]
    exact ⟨hn, ha⟩

/-- The fold inside `instantiate` preserves the invariants. -/
theorem wfComponent_foldl (compName : String) (secs : List IniSection)
    (ms : List (String × Model))
    (hn : nodupKeys ms = true) (ha : ∀ p ∈ ms, wfModel p.2 = true) :
    nodupKeys (secs.foldl (instantiateStep compName) ms) = true ∧
      ∀ p ∈ secs.foldl (instantiateStep compName) ms, wfModel p.2 = true := by
  induction secs generalizing ms with
  | nil => exact ⟨hn, ha⟩
  | cons sec rest ih =>
      have step := wfComponent_instantiateStep compName sec hn ha
      exact ih _ step.1 step.2

/-- Every component produced by `instantiate` is wellformed: its model map
and all RPC maps are free of duplicate keys. -/
theorem wfComponent_instantiate (path : String) (cfg : IniFile) :
    wfComponent (instantiate path cfg) = true := by
  unfold wfComponent instantiate
  have h := wfComponent_foldl (keyMustString (fileSection cfg "Component") "Name")
    cfg.sections [] rfl (by intro p hp; cases hp)
  simp only [Bool.and_eq_true, List.all_eq_true]
  exact ⟨h.1, fun p hp => h.2 p hp⟩

/-! ### Reflexivity of the structural `Equal` methods on wellformed values -/

theorem configEqual_refl (c : Config) : configEqual c c = true := by
  simp [configEqual]

theorem stateEqual_refl (s : State) : stateEqual s s = true := by
  simp [stateEqual]

theorem mapGetD_eq_of_lookupKey {m : List (String × String)} {k v : String}
    (h : lookupKey m k = some v) : mapGetD m k = v := by
  simp [mapGetD, h]

theorem rpcEqual_refl {r : Rpc} (h : wfRpc r = true) : rpcEqual r r = true := by
  simp only [wfRpc, Bool.and_eq_true, List.all_eq_true] at h
  obtain ⟨hn, ha⟩ := h
  have hloop : (r.modules.all (fun p =>
      match lookupKey r.modules p.1 with
      | none => false
      | some oNames => p.2.all (fun q => mapGetD oNames q.1 == q.2))) = true := by
    rw [List.all_eq_true]
    intro p hp
    rw [lookupKey_eq_of_mem_nodup hn hp]
    rw [List.all_eq_true]
    intro q hq
    rw [mapGetD_eq_of_lookupKey (lookupKey_eq_of_mem_nodup (ha p hp) hq)]
    exact beq_self_eq_true _
  simp only [rpcEqual, Bool.and_eq_true]
  exact ⟨⟨by simp, hloop⟩, hloop⟩

theorem modelEqual_refl {m : Model} (h : wfModel m = true) :
    modelEqual m m = true := by
  simp only [modelEqual, Bool.and_eq_true]
  refine ⟨⟨⟨by simp, ?_⟩, ?_⟩, ?_⟩
  · cases m.config with
    | none => rfl
    | some c => simpa [optEqual] using configEqual_refl c
  · cases m.state with
    | none => rfl
    | some s => simpa [optEqual] using stateEqual_refl s
  · unfold wfModel at h
    cases hr : m.rpc with
    | none => rfl
    | some r =>
        rw [hr] at h
        simpa [optEqual] using rpcEqual_refl h

theorem equalModels_refl {c : Component} (h : wfComponent c = true) :
    equalModels c c = true := by
  simp only [wfComponent, Bool.and_eq_true, List.all_eq_true] at h
  obtain ⟨hn, ha⟩ := h
  have hloop : (c.models.all (fun p =>
      match lookupKey c.models p.1 with
      | some m => modelEqual p.2 m
      | none => false)) = true := by
    rw [List.all_eq_true]
    intro p hp
    rw [lookupKey_eq_of_mem_nodup hn hp]
    exact modelEqual_refl (ha p hp)
  simp only [equalModels, Bool.and_eq_true]
  exact ⟨⟨by simp, hloop⟩, hloop⟩

theorem componentEqual_refl {c : Component} (h : wfComponent c = true) :
    componentEqual c c = true := by
  simp only [componentEqual, Bool.and_eq_true]
  exact ⟨⟨⟨by simp, by simp⟩, by simp⟩, equalModels_refl h⟩

end Ephemera

namespace Ephemera

/-! ### `Equal` versus the spec's structural sameness -/

theorem keysOf_mem_of_mem {α : Type} {m : List (String × α)} {p : String × α}
    (h : p ∈ m) : p.1 ∈ keysOf m :=
  List.mem_map.mpr ⟨p, h, rfl⟩

/-- Completeness: wellformed RPC sets holding the same triples — in any map
key order — satisfy the source's `rpc.Equal`. -/
theorem rpcEqual_of_sameTriples {r ro : Rpc} (hr : wfRpc r = true)
    (hro : wfRpc ro = true) (h : rpcSameTriples r ro = true) :
    rpcEqual r ro = true := by
  simp only [wfRpc, Bool.and_eq_true, List.all_eq_true] at hr hro
  obtain ⟨hrn, hra⟩ := hr
  obtain ⟨hron, hroa⟩ := hro
  simp only [rpcSameTriples, Bool.and_eq_true, List.all_eq_true] at h
  obtain ⟨hlen, hmods⟩ := h
  simp only [rpcEqual, Bool.and_eq_true, List.all_eq_true]
  refine ⟨⟨hlen, ?_⟩, ?_⟩
  · intro p hp
    have hmod := hmods p.1 (List.mem_append_left _ (keysOf_mem_of_mem hp))
    rw [lookupKey_eq_of_mem_nodup hrn hp] at hmod
    cases hro2 : lookupKey ro.modules p.1 with
    | none => rw [hro2] at hmod; exact absurd hmod (by simp)
    | some oNames =>
        rw [hro2] at hmod
        have hmod2 : ((keysOf p.2 ++ keysOf oNames).all fun name =>
            lookupKey p.2 name == lookupKey oNames name) = true := hmod
        show (p.2.all fun q => mapGetD oNames q.1 == q.2) = true
        rw [List.all_eq_true]
        intro q hq
        have hname := List.all_eq_true.mp hmod2 q.1
          (List.mem_append_left _ (keysOf_mem_of_mem hq))
        have hq1 : lookupKey p.2 q.1 = some q.2 :=
          lookupKey_eq_of_mem_nodup (hra p hp) hq
        rw [hq1] at hname
        have : lookupKey oNames q.1 = some q.2 := (eq_of_beq hname).symm
        rw [mapGetD_eq_of_lookupKey this]
        exact beq_self_eq_true _
  · intro p hp
    have hmod := hmods p.1 (List.mem_append_right _ (keysOf_mem_of_mem hp))
    rw [lookupKey_eq_of_mem_nodup hron hp] at hmod
    cases hr2 : lookupKey r.modules p.1 with
    | none => rw [hr2] at hmod; exact absurd hmod (by simp)
    | some rNames =>
        rw [hr2] at hmod
        have hmod2 : ((keysOf rNames ++ keysOf p.2).all fun name =>
            lookupKey rNames name == lookupKey p.2 name) = true := hmod
        show (p.2.all fun q => mapGetD rNames q.1 == q.2) = true
        rw [List.all_eq_true]
        intro q hq
        have hname := List.all_eq_true.mp hmod2 q.1
          (List.mem_append_right _ (keysOf_mem_of_mem hq))
        have hq1 : lookupKey p.2 q.1 = some q.2 :=
          lookupKey_eq_of_mem_nodup (hroa p hp) hq
        rw [hq1] at hname
        have : lookupKey rNames q.1 = some q.2 := eq_of_beq hname
        rw [mapGetD_eq_of_lookupKey this]
        exact beq_self_eq_true _

/-- Soundness: RPC sets the source's `rpc.Equal` accepts agree on module
presence and on the command string of every module/operation pair (with the
Go zero-value `""` for missing entries). -/
theorem rpcEqual_sound {r ro : Rpc} (h : rpcEqual r ro = true) (module : String) :
    ((lookupKey r.modules module).isSome = (lookupKey ro.modules module).isSome) ∧
    ∀ name, rpcGetD r module name = rpcGetD ro module name := by
  simp only [rpcEqual, Bool.and_eq_true, List.all_eq_true] at h
  obtain ⟨⟨hlen, h1⟩, h2⟩ := h
  cases hr : lookupKey r.modules module with
  | none =>
      cases hro : lookupKey ro.modules module with
      | none =>
          exact ⟨by simp, fun name => by simp [rpcGetD, hr, hro]⟩
      | some oNames =>
          have hm := h2 (module, oNames) (mem_of_lookupKey hro)
          simp only [hr] at hm
          exact Bool.noConfusion hm
  | some names =>
      have hm := h1 (module, names) (mem_of_lookupKey hr)
      cases hro : lookupKey ro.modules module with
      | none =>
          simp only [hro] at hm
          exact Bool.noConfusion hm
      | some oNames =>
          simp only [hro] at hm
          have hm2 := h2 (module, oNames) (mem_of_lookupKey hro)
          simp only [hr] at hm2
          refine ⟨rfl, fun name => ?_⟩
          simp only [rpcGetD, hr, hro]
          cases hn : lookupKey names name with
          | some s =>
              have hb := List.all_eq_true.mp hm (name, s) (mem_of_lookupKey hn)
              have hbe : mapGetD oNames name = s := eq_of_beq hb
              rw [mapGetD_eq_of_lookupKey hn, hbe]
          | none =>
              cases ho : lookupKey oNames name with
              | none => simp [mapGetD, hn, ho]
              | some s2 =>
                  have hb := List.all_eq_true.mp hm2 (name, s2) (mem_of_lookupKey ho)
                  have hbe : mapGetD names name = s2 := eq_of_beq hb
                  rw [mapGetD_eq_of_lookupKey ho, ← hbe]

/-- Option-level helper: spec-side config sameness implies the source's
`dyn.Equal` on optional configs. -/
theorem optEqual_config_of_same {a b : Option Config}
    (h : configSameStrings a b = true) : optEqual configEqual a b = true := by
  cases a with
  | none => cases b with
    | none => rfl
    | some c2 => simp [configSameStrings] at h
  | some c => cases b with
    | none => simp [configSameStrings] at h
    | some c2 => simpa [configSameStrings, optEqual, configEqual] using h

/-- Option-level helper: spec-side state sameness implies the source's
`dyn.Equal` on optional states. -/
theorem optEqual_state_of_same {a b : Option State}
    (h : stateSameStrings a b = true) : optEqual stateEqual a b = true := by
  cases a with
  | none => cases b with
    | none => rfl
    | some s2 => simp [stateSameStrings] at h
  | some s => cases b with
    | none => simp [stateSameStrings] at h
    | some s2 => simpa [stateSameStrings, optEqual, stateEqual] using h

/-- Option-level helper: spec-side triple sameness implies the source's
`dyn.Equal` on optional wellformed RPC sets. -/
theorem optEqual_rpc_of_same {a b : Option Rpc}
    (ha : ∀ r, a = some r → wfRpc r = true)
    (hb : ∀ r, b = some r → wfRpc r = true)
    (h : rpcSameOpt a b = true) : optEqual rpcEqual a b = true := by
  cases a with
  | none => cases b with
    | none => rfl
    | some ro => simp [rpcSameOpt] at h
  | some r => cases b with
    | none => simp [rpcSameOpt] at h
    | some ro =>
        simp only [rpcSameOpt] at h
        simpa [optEqual] using
          rpcEqual_of_sameTriples (ha r rfl) (hb ro rfl) h

/-- Completeness at the model level: wellformed models that are structurally
the same in the spec's sense satisfy the source's `Model.Equal`. -/
theorem modelEqual_of_sameStructure {m mo : Model} (hm : wfModel m = true)
    (hmo : wfModel mo = true) (h : modelSameStructure m mo = true) :
    modelEqual m mo = true := by
  simp only [modelSameStructure, Bool.and_eq_true] at h
  obtain ⟨⟨⟨hname, hcfg⟩, hst⟩, hrpc⟩ := h
  simp only [modelEqual, Bool.and_eq_true]
  refine ⟨⟨⟨hname, optEqual_config_of_same hcfg⟩,
    optEqual_state_of_same hst⟩, ?_⟩
  refine optEqual_rpc_of_same ?_ ?_ hrpc
  · intro r hr
    unfold wfModel at hm
    rw [hr] at hm
    exact hm
  · intro r hr
    unfold wfModel at hmo
    rw [hr] at hmo
    exact hmo

/-- Option-level helper: the source's `dyn.Equal` on optional configs forces
identical command-string triples. -/
theorem configStrings_of_optEqual {a b : Option Config}
    (h : optEqual configEqual a b = true) :
    configStringsOf a = configStringsOf b := by
  cases a with
  | none => cases b with
    | none => rfl
    | some c2 => simp [optEqual] at h
  | some c => cases b with
    | none => simp [optEqual] at h
    | some c2 =>
        simp only [optEqual, configEqual, Bool.and_eq_true] at h
        obtain ⟨⟨hg, hs⟩, hc⟩ := h
        simp only [configStringsOf, eq_of_beq hg, eq_of_beq hs, eq_of_beq hc]

/-- Option-level helper: the source's `dyn.Equal` on optional states forces
an identical get command string. -/
theorem stateStrings_of_optEqual {a b : Option State}
    (h : optEqual stateEqual a b = true) :
    stateStringsOf a = stateStringsOf b := by
  cases a with
  | none => cases b with
    | none => rfl
    | some s2 => simp [optEqual] at h
  | some s => cases b with
    | none => simp [optEqual] at h
    | some s2 =>
        simp only [optEqual, stateEqual] at h
        simp only [stateStringsOf, eq_of_beq h]

/-- Option-level helper: the source's `dyn.Equal` on optional RPC sets
forces matching presence and, when both are present, `rpcEqual`. -/
theorem rpc_of_optEqual {a b : Option Rpc}
    (h : optEqual rpcEqual a b = true) :
    a.isSome = b.isSome ∧
      ∀ r ro, a = some r → b = some ro → rpcEqual r ro = true := by
  cases a with
  | none => cases b with
    | none => exact ⟨rfl, by intro r ro hr; cases hr⟩
    | some ro => simp [optEqual] at h
  | some r => cases b with
    | none => simp [optEqual] at h
    | some ro =>
        refine ⟨rfl, ?_⟩
        intro r2 ro2 hr hro
        injection hr with hr
        injection hro with hro
        subst hr; subst hro
        simpa [optEqual] using h

/-- Soundness at the model level: models the source's `Model.Equal` accepts
have the same name and identical config/state/rpc command strings. -/
theorem modelEqual_sound {m mo : Model} (h : modelEqual m mo = true) :
    m.name = mo.name ∧
    configStringsOf m.config = configStringsOf mo.config ∧
    stateStringsOf m.state = stateStringsOf mo.state ∧
    m.rpc.isSome = mo.rpc.isSome ∧
    (∀ r ro, m.rpc = some r → mo.rpc = some ro → ∀ module,
      ((lookupKey r.modules module).isSome = (lookupKey ro.modules module).isSome) ∧
      ∀ name, rpcGetD r module name = rpcGetD ro module name) := by
  simp only [modelEqual, Bool.and_eq_true] at h
  obtain ⟨⟨⟨hname, hcfg⟩, hst⟩, hrpc⟩ := h
  have hr := rpc_of_optEqual hrpc
  exact ⟨eq_of_beq hname, configStrings_of_optEqual hcfg,
    stateStrings_of_optEqual hst, hr.1,
    fun r ro h1 h2 module => rpcEqual_sound (hr.2 r ro h1 h2) module⟩

end Ephemera

namespace Ephemerad

open Ephemera

/-! ### Reconciliation lemmas -/

theorem swapEntry_fst (old : Snapshot) (p : String × RuntimeComponent) :
    (swapEntry old p).1 = p.1 := by
  unfold swapEntry
  cases lookupKey old p.1 with
  | none => rfl
  | some oc =>
      by_cases h : componentEqual p.2.meta oc.meta = true
      · simp [h]
      · simp [h]

theorem swapEntry_eq_old {old : Snapshot} {p : String × RuntimeComponent}
    {oc : RuntimeComponent} (h1 : lookupKey old p.1 = some oc)
    (h2 : componentEqual p.2.meta oc.meta = true) :
    swapEntry old p = (p.1, oc) := by
  unfold swapEntry
  rw [h1]
  show (if componentEqual p.2.meta oc.meta = true then (p.1, oc) else p) = (p.1, oc)
  exact if_pos h2

theorem keysOf_swapper (old fresh : Snapshot) :
    keysOf (swapper old fresh) = keysOf fresh := by
  unfold swapper keysOf
  rw [List.map_map]
  apply List.map_congr_left
  intro p _
  exact swapEntry_fst old p

/-- Every entry of the swapped snapshot is the very runtime component the
old snapshot holds under that name, provided the fresh metas match old. -/
theorem swapper_entry_from_old {old fresh : Snapshot}
    (heq : ∀ p ∈ fresh, ∃ oc, lookupKey old p.1 = some oc ∧
      componentEqual p.2.meta oc.meta = true) :
    ∀ p ∈ swapper old fresh, lookupKey old p.1 = some p.2 := by
  intro p hp
  simp only [swapper, List.mem_map] at hp
  obtain ⟨q, hq, hfq⟩ := hp
  obtain ⟨oc, hoc, heqc⟩ := heq q hq
  rw [swapEntry_eq_old hoc heqc] at hfq
  rw [← hfq]
  exact hoc

theorem lookupKey_swapper_some {old fresh : Snapshot}
    (heq : ∀ p ∈ fresh, ∃ oc, lookupKey old p.1 = some oc ∧
      componentEqual p.2.meta oc.meta = true) :
    ∀ n v, lookupKey (swapper old fresh) n = some v → lookupKey old n = some v := by
  induction fresh with
  | nil => intro n v h; cases h
  | cons q rest ih =>
      intro n v h
      have hq := heq q (List.mem_cons_self _ _)
      obtain ⟨oc, hoc, heqc⟩ := hq
      simp only [swapper, List.map_cons] at h
      rw [swapEntry_eq_old hoc heqc] at h
      simp only [lookupKey] at h
      by_cases hn : q.1 = n
      · rw [if_pos hn] at h
        injection h with h
        subst h
        rw [← hn]
        exact hoc
      · rw [if_neg hn] at h
        exact ih (fun p hp => heq p (List.mem_cons_of_mem _ hp)) n v h

/-- When the old names all appear among the fresh names and every fresh meta
matches its old predecessor, swapping leaves every lookup unchanged. -/
theorem lookupKey_swapper_eq {old fresh : Snapshot}
    (hsub : ∀ p ∈ old, (lookupKey fresh p.1).isSome = true)
    (heq : ∀ p ∈ fresh, ∃ oc, lookupKey old p.1 = some oc ∧
      componentEqual p.2.meta oc.meta = true) :
    ∀ n, lookupKey (swapper old fresh) n = lookupKey old n := by
  intro n
  cases hs : lookupKey (swapper old fresh) n with
  | some v => exact (lookupKey_swapper_some heq n v hs).symm
  | none =>
      cases ho : lookupKey old n with
      | none => rfl
      | some w =>
          exfalso
          have hmem := hsub (n, w) (mem_of_lookupKey ho)
          have hkeys : n ∈ keysOf fresh := lookupKey_isSome_iff_mem_keys.mp hmem
          rw [← keysOf_swapper old fresh] at hkeys
          have := lookupKey_isSome_iff_mem_keys.mpr hkeys
          rw [hs] at this
          cases this

/-- Under an unchanged definition set, `syncComponents` computes no stop
actions at all. -/
theorem syncActions_swapper_nil {old fresh : Snapshot}
    (hwf : ∀ p ∈ old, wfComponent p.2.meta = true)
    (hsub : ∀ p ∈ old, (lookupKey fresh p.1).isSome = true)
    (heq : ∀ p ∈ fresh, ∃ oc, lookupKey old p.1 = some oc ∧
      componentEqual p.2.meta oc.meta = true) :
    syncActions old (swapper old fresh) = [] := by
  unfold syncActions
  rw [List.append_eq_nil]
  constructor
  · rw [List.map_eq_nil_iff]
    rw [List.filter_eq_nil_iff]
    intro p hp
    rw [lookupKey_swapper_eq hsub heq p.1]
    have : (lookupKey old p.1).isSome = true := by
      obtain ⟨k, v⟩ := p
      exact lookupKey_isSome_of_mem hp
    simp [this]
  · rw [List.filterMap_eq_nil_iff]
    intro p hp
    have hfrom := swapper_entry_from_old heq p hp
    rw [hfrom]
    have hmem : (p.1, p.2) ∈ old := mem_of_lookupKey hfrom
    have hwfp := hwf (p.1, p.2) hmem
    show (if componentEqual p.2.meta p.2.meta = true then (none : Option StopAction)
          else some ⟨p.1, p.2⟩) = none
    exact if_pos (componentEqual_refl hwfp)

end Ephemerad

namespace Ephemerad

open Ephemera

/-! ### Runtime-component and dispatcher lemmas -/

/-- A `Run` that reports an error leaves the running flag false (the only
error source is the bus registration, attempted from the not-running
state). -/
theorem run_err_implies_not_running {mc : Component} {b : Bool} {sys : Sys}
    {v : Option VciErr} {e : VciErr}
    (h : (component.Run mc b sys v).2.2 = some e) :
    (component.Run mc b sys v).1 = false := by
  cases b
  · cases v with
    | none => simp [component.Run] at h
    | some e2 => simp [component.Run]
  · simp [component.Run] at h

/-- Characterization of `rpc.Activate` when the name is present: the
component is run, the stored flag updates, and the bus reply mirrors the run
result. -/
theorem activate_found (cs : Snapshot) (sys : Sys) (v : Option VciErr)
    (name : String) (rc : RuntimeComponent) (h : lookupKey cs name = some rc) :
    rpc.Activate cs sys v name =
      (assocSet cs name
        { rc with running := (component.Run rc.meta rc.running sys v).1 },
       (component.Run rc.meta rc.running sys v).2.1,
       match (component.Run rc.meta rc.running sys v).2.2 with
       | some e => Except.error (.opErr e)
       | none => Except.ok ()) := by
  simp only [rpc.Activate, h]
  set re := component.Run rc.meta rc.running sys v with hre
  obtain ⟨rb, rev, rerr⟩ := re
  cases rerr <;> rfl

/-- Characterization of `rpc.Deactivate` when the name is present. -/
theorem deactivate_found (cs : Snapshot) (sys : Sys) (v : Option VciErr)
    (name : String) (rc : RuntimeComponent) (h : lookupKey cs name = some rc) :
    rpc.Deactivate cs sys v name =
      (assocSet cs name
        { rc with running := (component.Stop rc.meta rc.running sys v).1 },
       (component.Stop rc.meta rc.running sys v).2.1,
       match (component.Stop rc.meta rc.running sys v).2.2 with
       | some e => Except.error (.opErr e)
       | none => Except.ok ()) := by
  simp only [rpc.Deactivate, h]
  set re := component.Stop rc.meta rc.running sys v with hre
  obtain ⟨rb, rev, rerr⟩ := re
  cases rerr <;> rfl

/-- An `Activate` that reports a propagated operation error leaves the
component stored under that name not-running. -/
theorem activate_err_not_running (cs : Snapshot) (sys : Sys)
    (v : Option VciErr) (name : String) (e : VciErr) :
    (rpc.Activate cs sys v name).2.2 = Except.error (.opErr e) →
    ∀ rc', lookupKey (rpc.Activate cs sys v name).1 name = some rc' →
      rc'.running = false := by
  cases hl : lookupKey cs name with
  | none =>
      intro h
      simp only [rpc.Activate, hl] at h
      simp at h
  | some rc =>
      intro h rc' hrc'
      rw [activate_found cs sys v name rc hl] at h hrc'
      have h2 : (match (component.Run rc.meta rc.running sys v).2.2 with
          | some e2 => Except.error (DaemonErr.opErr e2)
          | none => Except.ok ()) = Except.error (.opErr e) := h
      have hrc2 : lookupKey (assocSet cs name
          { rc with running := (component.Run rc.meta rc.running sys v).1 })
          name = some rc' := hrc'
      rw [lookupKey_assocSet, if_pos rfl] at hrc2
      injection hrc2 with hrc2
      subst hrc2
      show (component.Run rc.meta rc.running sys v).1 = false
      revert h2
      cases hr : (component.Run rc.meta rc.running sys v).2.2 with
      | none => intro h2; simp at h2
      | some e2 =>
          intro h2
          exact run_err_implies_not_running hr

end Ephemerad

namespace Claims

open Ephemera Ephemerad

/-! ### Further operation lemmas used by the claims -/

theorem startEvents_length (mc : Component) (sys : Sys) :
    (Component.Start mc sys).1.length = (if mc.start = "" then 0 else 1) := by
  simp only [Component.Start]
  split
  · rfl
  · split <;> rfl

theorem stopEvents_length (mc : Component) (sys : Sys) :
    (Component.Stop mc sys).1.length = (if mc.stop = "" then 0 else 1) := by
  simp only [Component.Stop]
  split
  · rfl
  · split <;> rfl

/-- C5: every operation whose configured command line is empty spawns no
process (empty spawn list); Config/State Get return an empty payload and
Set, Check, Start and Stop return success, for every external world `sys`. -/
theorem empty_command_short_circuit (cn mn g st ck inp f n sp : String)
    (models : List (String × Model)) (sys : Sys) :
    config.Get ⟨cn, mn, "", st, ck⟩ sys = ([], "") ∧
    config.Set ⟨cn, mn, g, "", ck⟩ sys inp = ([], none) ∧
    config.Check ⟨cn, mn, g, st, ""⟩ sys inp = ([], none) ∧
    state.Get ⟨cn, mn, ""⟩ sys = ([], "") ∧
    Component.Start ⟨f, n, "", sp, models⟩ sys = ([], none) ∧
    Component.Stop ⟨f, n, st, "", models⟩ sys = ([], none) :=
  ⟨rfl, rfl, rfl, rfl, rfl, rfl⟩

/-- C10: Component equality ignores provenance — two components
instantiated from identical parsed content under different file paths
compare equal (`Component.Equal` never reads `instanceFile`), and
config/state equality ignore the embedded component and model names. -/
theorem component_equality_ignores_provenance :
    (∀ (p1 p2 : String) (cfg : IniFile),
        componentEqual (instantiate p1 cfg) (instantiate p2 cfg) = true) ∧
    (∀ n1 m1 n2 m2 g s k : String,
        configEqual ⟨n1, m1, g, s, k⟩ ⟨n2, m2, g, s, k⟩ = true) ∧
    (∀ n1 m1 n2 m2 g : String,
        stateEqual ⟨n1, m1, g⟩ ⟨n2, m2, g⟩ = true) := by
  refine ⟨?_, ?_, ?_⟩
  · intro p1 p2 cfg
    have h : componentEqual (instantiate p1 cfg) (instantiate p2 cfg) =
        componentEqual (instantiate p1 cfg) (instantiate p1 cfg) := rfl
    rw [h]
    exact componentEqual_refl (wfComponent_instantiate p1 cfg)
  · intro n1 m1 n2 m2 g s k
    simp [configEqual]
  · intro n1 m1 n2 m2 g
    simp [stateEqual]

/-- C3 (divergence witness): a model section holding only an RPC key still
yields config and state records — with every command string `""` — because
go-ini's `Key` never returns nil and the nil tests in `configNew`/`stateNew`
never fire; the claim (and spec) say absent keys yield absent
sub-entities. -/
theorem absent_config_keys_yield_empty_config :
    lookupKey (instantiate "only-rpc.instance" Witness.onlyRpcFile).models "m" =
      some { name := "m"
             config := some ⟨"comp", "m", "", "", ""⟩
             state := some ⟨"comp", "m", ""⟩
             rpc := some ⟨"comp", "m", [("test", [("rpc1", "cmd")])]⟩ } := by
  decide

/-- C6 (environment part, and divergence witness for the metadata part):
every spawned process receives exactly the three `genEnvironment` variables
with the operation label — `VCI_MODEL_NAME` empty for Start/Stop — and an
RPC invocation spawns exactly one process whose environment is those three
variables and whose only call input is the payload on stdin: no out-of-band
call metadata exists anywhere in the generated handler. -/
theorem script_environment_exact (c : Config) (st : State) (comp : Component)
    (r : Rpc) (module nm cmd : String) (sys : Sys) (inp : EncodedString) :
    ((config.Get c sys).1.all (fun ev =>
        ev.env == genEnvironment c.compName c.modelName "Config/Get")) = true ∧
    ((config.Set c sys inp).1.all (fun ev =>
        ev.env == genEnvironment c.compName c.modelName "Config/Set")) = true ∧
    ((config.Check c sys inp).1.all (fun ev =>
        ev.env == genEnvironment c.compName c.modelName "Config/Check")) = true ∧
    ((state.Get st sys).1.all (fun ev =>
        ev.env == genEnvironment st.compName st.modelName "State/Get")) = true ∧
    ((Component.Start comp sys).1.all (fun ev =>
        ev.env == genEnvironment comp.name "" "Start")) = true ∧
    ((Component.Stop comp sys).1.all (fun ev =>
        ev.env == genEnvironment comp.name "" "Stop")) = true ∧
    (rpc.genRpc r module nm cmd sys inp).1 = [rpc.RpcEvent r module nm cmd inp] ∧
    (rpc.RpcEvent r module nm cmd inp).env =
      genEnvironment r.compName r.modelName (strJoin ["RPC", module, nm] "/") ∧
    (rpc.RpcEvent r module nm cmd inp).stdin = inp := by
  refine ⟨?_, ?_, ?_, ?_, ?_, ?_, ?_, rfl, rfl⟩
  · simp only [config.Get]
    split
    · rfl
    · split <;> simp [config.GetEvent]
  · simp only [config.Set]
    split
    · rfl
    · split <;> simp [config.SetEvent]
  · simp only [config.Check]
    split
    · rfl
    · split <;> simp [config.CheckEvent]
  · simp only [state.Get]
    split
    · rfl
    · split <;> simp [state.GetEvent]
  · simp only [Component.Start]
    split
    · rfl
    · split <;> simp [Component.StartEvent]
  · simp only [Component.Stop]
    split
    · rfl
    · split <;> simp [Component.StopEvent]
  · simp only [rpc.genRpc]
    split <;> rfl

/-- C4 (counterexample): a Config Get whose script exits nonzero and writes
`"data"` to stdout does spawn the process, yet the bus-visible outcome is a
*successful* empty reply — the handler has no error channel — contradicting
the claim that the call fails. -/
theorem failing_get_returns_ok_empty :
    (Witness.failSys.exec (config.GetEvent Witness.cfgGetOnly)).exitOk = false ∧
    (Witness.failSys.exec (config.GetEvent Witness.cfgGetOnly)).stdout = "data" ∧
    (config.Get Witness.cfgGetOnly Witness.failSys).1.length = 1 ∧
    config.GetOutcome Witness.cfgGetOnly Witness.failSys = .ok "" :=
  ⟨rfl, rfl, rfl, rfl⟩

/-- C4 (amended): when the configured script exits nonzero, Config Set,
Config Check and RPC return the unpacked stderr error (and RPC an empty
payload), while Config/State Get — whose handlers have no error return —
yield an empty payload and a non-error outcome; in no case is the script's
stdout returned. -/
theorem nonzero_exit_semantics (c : Config) (st : State) (r : Rpc)
    (module nm cmd : String) (sys : Sys) (inp : EncodedString) :
    (c.get ≠ "" → (sys.exec (config.GetEvent c)).exitOk = false →
        config.Get c sys = ([config.GetEvent c], "") ∧
        config.GetOutcome c sys = .ok "") ∧
    (st.get ≠ "" → (sys.exec (state.GetEvent st)).exitOk = false →
        state.Get st sys = ([state.GetEvent st], "") ∧
        state.GetOutcome st sys = .ok "") ∧
    (c.set ≠ "" → (sys.exec (config.SetEvent c inp)).exitOk = false →
        (config.Set c sys inp).2 =
          some (unpackError sys (sys.exec (config.SetEvent c inp)).stderr)) ∧
    (c.check ≠ "" → (sys.exec (config.CheckEvent c inp)).exitOk = false →
        (config.Check c sys inp).2 =
          some (unpackError sys (sys.exec (config.CheckEvent c inp)).stderr)) ∧
    ((sys.exec (rpc.RpcEvent r module nm cmd inp)).exitOk = false →
        rpc.genRpc r module nm cmd sys inp =
          ([rpc.RpcEvent r module nm cmd inp], "",
            some (unpackError sys
              (sys.exec (rpc.RpcEvent r module nm cmd inp)).stderr))) := by
  refine ⟨?_, ?_, ?_, ?_, ?_⟩
  · intro hne hfail
    constructor
    · simp only [config.Get, if_neg hne, hfail]
      rfl
    · simp only [config.GetOutcome, config.Get, if_neg hne, hfail]
      rfl
  · intro hne hfail
    constructor
    · simp only [state.Get, if_neg hne, hfail]
      rfl
    · simp only [state.GetOutcome, state.Get, if_neg hne, hfail]
      rfl
  · intro hne hfail
    simp only [config.Set, if_neg hne, hfail]
    rfl
  · intro hne hfail
    simp only [config.Check, if_neg hne, hfail]
    rfl
  · intro hfail
    simp only [rpc.genRpc, hfail]
    rfl

theorem nonzero_exit_semantics_witness :
    config.GetOutcome Witness.cfgFull Witness.failSys = .ok "" ∧
    (config.Set Witness.cfgFull Witness.failSys "{}").2 =
      some (ScriptError.execErr "boom") ∧
    rpc.genRpc Witness.rpcA "test" "rpc1" "cmd" Witness.failSys "{}" =
      ([rpc.RpcEvent Witness.rpcA "test" "rpc1" "cmd" "{}"], "",
        some (ScriptError.execErr "boom")) := by
  have h := nonzero_exit_semantics Witness.cfgFull Witness.stFull Witness.rpcA
    "test" "rpc1" "cmd" Witness.failSys "{}"
  refine ⟨(h.1 (by decide) rfl).2, ?_, ?_⟩
  · have h2 := h.2.2.1 (by decide) rfl
    exact h2
  · exact h.2.2.2.2 rfl

end Claims

namespace Claims

open Ephemera Ephemerad

/-- C1 (counterexample): a component whose start script fails (every
execution exits nonzero under `failSys`) still transitions to running and
`Run` returns success when the bus registration succeeds — the start
script's error is discarded — contradicting the claim that a failed start
script leaves the flag false and returns the failure. -/
theorem run_swallows_start_script_error :
    (Component.Start Witness.cMeta Witness.failSys).2.isSome = true ∧
    component.Run Witness.cMeta false Witness.failSys none =
      (true, (Component.Start Witness.cMeta Witness.failSys).1, none) :=
  ⟨rfl, rfl⟩

/-- C1 (amended): a Run whose *bus registration* fails leaves the running
flag false and returns that failure; any Run returning an error leaves the
flag false; and an Activate that propagates an operation error leaves the
component stored under that name not-running.  A start-script failure alone
is discarded: with a successful bus registration the component still becomes
running (see the counterexample). -/
theorem run_failure_semantics (mc : Component) (b : Bool) (sys : Sys)
    (v : Option VciErr) (e : VciErr) (cs : Snapshot) (name : String) :
    component.Run mc false sys (some e) =
      (false, (Component.Start mc sys).1, some e) ∧
    ((component.Run mc b sys v).2.2 = some e →
      (component.Run mc b sys v).1 = false) ∧
    ((rpc.Activate cs sys v name).2.2 = Except.error (.opErr e) →
      ∀ rc', lookupKey (rpc.Activate cs sys v name).1 name = some rc' →
        rc'.running = false) :=
  ⟨rfl, fun h => run_err_implies_not_running h,
   activate_err_not_running cs sys v name e⟩

theorem run_failure_semantics_witness :
    (component.Run Witness.cMeta false Witness.okSys (some "be")).1 = false ∧
    (⟨Witness.cMeta, 7, false⟩ : RuntimeComponent).running = false := by
  refine ⟨(run_failure_semantics Witness.cMeta false Witness.okSys (some "be")
      "be" [] "x").2.1 rfl, ?_⟩
  exact (run_failure_semantics Witness.cMeta false Witness.okSys (some "be")
      "be" Witness.stoppedSnap "comp").2.2 rfl ⟨Witness.cMeta, 7, false⟩ rfl

/-- C7 (counterexample): when the bus registration fails on both attempts,
two successive `Run` calls from not-running invoke the start script twice —
the claim's "exactly once" fails without a success assumption on the first
call. -/
theorem start_script_invoked_twice_on_bus_failure :
    ((component.Run Witness.cMeta false Witness.okSys (some "buserr")).2.1 ++
      (component.Run Witness.cMeta
        (component.Run Witness.cMeta false Witness.okSys (some "buserr")).1
        Witness.okSys (some "buserr")).2.1).length = 2 :=
  rfl

/-- C7 (amended): when the first call's bus operation succeeds, Start/Run
and Stop are idempotent: a second Run is a success no-op, two successive
Runs from not-running invoke the start script exactly once (when one is
configured), and two successive Stops invoke the stop script at most
once. -/
theorem start_stop_idempotence (mc : Component) (sys : Sys)
    (v : Option VciErr) (b : Bool) :
    component.Run mc false sys none =
      (true, (Component.Start mc sys).1, none) ∧
    component.Run mc true sys v = (true, [], none) ∧
    (mc.start ≠ "" →
      ((component.Run mc false sys none).2.1 ++
        (component.Run mc (component.Run mc false sys none).1 sys v).2.1).length
        = 1) ∧
    ((component.Stop mc b sys none).2.1 ++
      (component.Stop mc (component.Stop mc b sys none).1 sys v).2.1).length
      ≤ 1 := by
  have h1 : component.Run mc false sys none =
      (true, (Component.Start mc sys).1, none) := rfl
  have h2 : component.Run mc true sys v = (true, [], none) := rfl
  refine ⟨h1, h2, ?_, ?_⟩
  · intro hne
    rw [h1]
    show ((Component.Start mc sys).1 ++
      (component.Run mc true sys v).2.1).length = 1
    rw [h2]
    simp only [List.append_nil]
    rw [startEvents_length, if_neg hne]
  · cases b
    · exact Nat.zero_le 1
    · have hs1 : component.Stop mc true sys none =
          (false, (Component.Stop mc sys).1, none) := rfl
      rw [hs1]
      show ((Component.Stop mc sys).1 ++
        (component.Stop mc false sys v).2.1).length ≤ 1
      have hs2 : component.Stop mc false sys v = (false, [], none) := rfl
      rw [hs2]
      simp only [List.append_nil]
      rw [stopEvents_length]
      split
      · exact Nat.zero_le 1
      · exact Nat.le_refl 1

theorem start_stop_idempotence_witness :
    ((component.Run Witness.cMeta false Witness.okSys none).2.1 ++
      (component.Run Witness.cMeta
        (component.Run Witness.cMeta false Witness.okSys none).1
        Witness.okSys none).2.1).length = 1 :=
  (start_stop_idempotence Witness.cMeta Witness.okSys none true).2.2.1
    (by decide)

/-- C2: a reconciliation pass whose candidate definition set matches the old
one name-for-name with structurally equal metas migrates every old runtime
component unchanged — each entry of the swapped snapshot is the very old
runtime component, lookups are unchanged — and `syncComponents` issues no
stop action. -/
theorem reconciliation_unchanged_noop (old fresh : Snapshot)
    (hwf : ∀ p ∈ old, wfComponent p.2.meta = true)
    (hsub : ∀ p ∈ old, (lookupKey fresh p.1).isSome = true)
    (heq : ∀ p ∈ fresh, ∃ oc, lookupKey old p.1 = some oc ∧
      componentEqual p.2.meta oc.meta = true) :
    (∀ p ∈ swapper old fresh, lookupKey old p.1 = some p.2) ∧
    (∀ n, lookupKey (swapper old fresh) n = lookupKey old n) ∧
    syncActions old (swapper old fresh) = [] :=
  ⟨swapper_entry_from_old heq, lookupKey_swapper_eq hsub heq,
   syncActions_swapper_nil hwf hsub heq⟩

theorem reconciliation_unchanged_noop_witness :
    lookupKey (swapper Witness.oldSnap Witness.freshSnap) "comp" =
      some Witness.oldRC ∧
    syncActions Witness.oldSnap (swapper Witness.oldSnap Witness.freshSnap)
      = [] := by
  have h := reconciliation_unchanged_noop Witness.oldSnap Witness.freshSnap
    ?_ ?_ ?_
  · refine ⟨?_, h.2.2⟩
    rw [h.2.1 "comp"]
    rfl
  · intro p hp
    simp only [Witness.oldSnap, List.mem_singleton] at hp
    subst hp
    exact wfComponent_instantiate "dir/a.instance" Witness.fullFile
  · intro p hp
    simp only [Witness.oldSnap, List.mem_singleton] at hp
    subst hp
    rfl
  · intro p hp
    simp only [Witness.freshSnap, List.mem_singleton] at hp
    subst hp
    refine ⟨Witness.oldRC, rfl, ?_⟩
    exact componentEqual_refl
      (wfComponent_instantiate "dir/a.instance" Witness.fullFile)

/-- C8: Model equality is structural — wellformed models with the same name
and identical config/state/rpc command strings (independent of map key
ordering) satisfy `Model.Equal`, and conversely models `Model.Equal` accepts
agree on the name and on every command string, so two models differing in
any one command string compare unequal. -/
theorem model_equality_structural (m mo : Model) :
    (wfModel m = true → wfModel mo = true →
      modelSameStructure m mo = true → modelEqual m mo = true) ∧
    (modelEqual m mo = true →
      m.name = mo.name ∧
      configStringsOf m.config = configStringsOf mo.config ∧
      stateStringsOf m.state = stateStringsOf mo.state ∧
      m.rpc.isSome = mo.rpc.isSome ∧
      (∀ r ro, m.rpc = some r → mo.rpc = some ro → ∀ module,
        ((lookupKey r.modules module).isSome
          = (lookupKey ro.modules module).isSome) ∧
        ∀ name, rpcGetD r module name = rpcGetD ro module name)) :=
  ⟨fun hm hmo h => modelEqual_of_sameStructure hm hmo h, modelEqual_sound⟩

theorem model_equality_structural_witness :
    modelEqual Witness.mdlA Witness.mdlB = true ∧
    rpcGetD Witness.rpcA "a" "x" = rpcGetD Witness.rpcB "a" "x" := by
  have h1 := (model_equality_structural Witness.mdlA Witness.mdlB).1
    (by decide) (by decide) (by decide)
  have h2 := ((model_equality_structural Witness.mdlA Witness.mdlB).2 h1).2.2.2.2
    Witness.rpcA Witness.rpcB rfl rfl "a"
  exact ⟨h1, h2.2 "x"⟩

/-- C9: Activate and Deactivate on a name absent from the snapshot return
the not-found error with no process spawned and the snapshot unchanged; on a
present name they return exactly the Run/Stop outcome — the same spawn
events, the empty success payload exactly when the operation succeeded, and
the propagated operation error exactly when it failed. -/
theorem activate_deactivate_lookup (cs : Snapshot) (sys : Sys)
    (v : Option VciErr) (name : String) :
    (lookupKey cs name = none →
      rpc.Activate cs sys v name = (cs, [], .error (.noComponent name)) ∧
      rpc.Deactivate cs sys v name = (cs, [], .error (.noComponent name))) ∧
    (∀ rc, lookupKey cs name = some rc →
      ((rpc.Activate cs sys v name).2.1
          = (component.Run rc.meta rc.running sys v).2.1 ∧
        ((rpc.Activate cs sys v name).2.2 = .ok ()
          ↔ (component.Run rc.meta rc.running sys v).2.2 = none) ∧
        ∀ e, (rpc.Activate cs sys v name).2.2 = .error (.opErr e)
          ↔ (component.Run rc.meta rc.running sys v).2.2 = some e) ∧
      ((rpc.Deactivate cs sys v name).2.1
          = (component.Stop rc.meta rc.running sys v).2.1 ∧
        ((rpc.Deactivate cs sys v name).2.2 = .ok ()
          ↔ (component.Stop rc.meta rc.running sys v).2.2 = none) ∧
        ∀ e, (rpc.Deactivate cs sys v name).2.2 = .error (.opErr e)
          ↔ (component.Stop rc.meta rc.running sys v).2.2 = some e)) := by
  constructor
  · intro h
    constructor
    · simp only [rpc.Activate, h]
    · simp only [rpc.Deactivate, h]
  · intro rc h
    constructor
    · rw [activate_found cs sys v name rc h]
      revert v
      intro v
      cases hr : (component.Run rc.meta rc.running sys v).2.2 with
      | none => refine ⟨rfl, by simp [hr], ?_⟩
                intro e
                simp [hr]
      | some e2 => refine ⟨rfl, by simp [hr], ?_⟩
                   intro e
                   simp [hr]
    · rw [deactivate_found cs sys v name rc h]
      cases hr : (component.Stop rc.meta rc.running sys v).2.2 with
      | none => refine ⟨rfl, by simp [hr], ?_⟩
                intro e
                simp [hr]
      | some e2 => refine ⟨rfl, by simp [hr], ?_⟩
                   intro e
                   simp [hr]

theorem activate_deactivate_lookup_witness :
    rpc.Activate ([] : Snapshot) Witness.okSys none "x" =
      ([], [], .error (.noComponent "x")) ∧
    ((rpc.Activate Witness.stoppedSnap Witness.okSys none "comp").2.2
      = .ok () ↔
      (component.Run Witness.cMeta false Witness.okSys none).2.2 = none) := by
  have h1 := (activate_deactivate_lookup [] Witness.okSys none "x").1 rfl
  have h2 := (activate_deactivate_lookup Witness.stoppedSnap Witness.okSys
    none "comp").2 ⟨Witness.cMeta, 7, false⟩ rfl
  exact ⟨h1.1, h2.1.2.1⟩

end Claims
